import Mathlib

/-!
Shallow embedding of the `react-native-format-kit` currency engine:
`src/core/currency.ts` (pure formatting/parsing core) and
`src/hooks/useCurrencyInput.ts` (the input-session state machine), with
theorems checking the natural-language specification against it.

Modelling conventions:
* JS strings are `List Char`; JS `number` is `ℚ` (IEEE-754 rounding noise and
  `NaN` are outside the model; every input our theorems use is an exact
  rational).  `number | null` is `Option ℚ`.
* Optional numeric configuration fields are `Option ℕ` / `Option ℚ`; a JS
  truthiness test `if (!maxDigits)` is modelled by matching `none` and `0`.
* The platform `Intl.NumberFormat` machinery is an external collaborator and
  is abstracted: a currency `Config` carries an opaque grouped-currency
  formatter `fmt : ℕ → ℕ → ℚ → List Char` (minimum fraction digits, maximum
  fraction digits, value) and the resolved locale decimal separator
  `sep : Char` (`getDecimalSeparator`).
-/

namespace FormatKit

/-- JS strings, modelled as lists of characters. -/
abbrev Str := List Char

/-- Embed a Lean string literal as a `Str`. -/
def strOf (s : String) : Str := s.data

/-- `input.replace(/\D/g, "")` — keep only ASCII digits
(`stripToDigits` in `src/core/currency.ts`). -/
def stripToDigits (input : Str) : Str := input.filter Char.isDigit

/-- Numeric value of a digit character (`c.toNat - 48`). -/
def charVal (c : Char) : ℕ := c.toNat - 48

/-- `Number(s)` restricted to all-digit strings, as used by the source on
digit-only inputs (`Number("") = 0` in JS, matched by the empty fold). -/
def jsNumber (s : Str) : ℕ := s.foldl (fun a c => 10 * a + charVal c) 0

/-- The character for a single decimal digit `d < 10`. -/
def digitChar (d : ℕ) : Char := Char.ofNat (48 + d)

/-- `n.toString()` for a natural number: its base-10 digit characters,
most significant first (`"0"` for zero). -/
def natToStr (n : ℕ) : Str :=
  if n = 0 then ['0'] else ((Nat.digits 10 n).reverse.map digitChar)

/-- `Math.round(x)` (on `ℚ`): `⌊x + 1/2⌋`.  The source only rounds
non-negative magnitudes, where this agrees with JS. -/
def jsRound (x : ℚ) : ℤ := ⌊x + 1 / 2⌋

/-- `s.padStart(n, c)` for strings. -/
def padStart (s : Str) (n : ℕ) (c : Char) : Str :=
  List.replicate (n - s.length) c ++ s

/-- `s.replace(/^0+(?=\d)/, "") || "0"`: drop leading zeros but keep at least
one character.  On all-digit strings (the only strings the source feeds it)
this agrees with the regex + JS falsy-fallback exactly. -/
def stripLeadingZeros (s : Str) : Str :=
  let t := s.dropWhile (fun c => c == '0')
  if t = [] then ['0'] else t

/-- `CurrencyParsingOptions` (`src/core/currency.ts`).  `currency`/`locale`
are only consumed by the external `Intl` collaborators and are absorbed into
the abstracted formatter/separator, so they are not carried here. -/
structure ParseOptions where
  fractionDigits : Option ℕ := Option.none
  minimumFractionDigits : Option ℕ := Option.none
  maximumFractionDigits : Option ℕ := Option.none
  minimumValue : Option ℚ := Option.none
  maximumValue : Option ℚ := Option.none
  allowNegative : Bool := false
  maxDigits : Option ℕ := Option.none
  isNegative : Bool := false

/-- `DEFAULT_FRACTION_DIGITS`. -/
def DEFAULT_FRACTION_DIGITS : ℕ := 2

/-- `resolveFractionDigits` (`src/core/currency.ts`): resolve the effective
`(minFractionDigits, maxFractionDigits)` pair.  Digit counts are modelled as
naturals, so the `Math.max(0, ·)` floor is the identity. -/
def resolveFractionDigits (fractionDigits minimumFractionDigits
    maximumFractionDigits : Option ℕ) : ℕ × ℕ :=
  let base := fractionDigits.getD DEFAULT_FRACTION_DIGITS
  let minF := minimumFractionDigits.getD base
  let maxF := max minF (maximumFractionDigits.getD base)
  (minF, maxF)

/-- `resolveFractionDigits` applied to a `ParseOptions`. -/
def resolveOf (o : ParseOptions) : ℕ × ℕ :=
  resolveFractionDigits o.fractionDigits o.minimumFractionDigits
    o.maximumFractionDigits

/-- `applyMaxDigits` (`src/core/currency.ts`): enforce the integer-digit cap
by keeping the last `maxDigits + fractionDigits` characters.
`if (!maxDigits)` is JS-falsy: `undefined` or `0` both pass through. -/
def applyMaxDigits (digits : Str) (fractionDigits : ℕ)
    (maxDigits : Option ℕ) : Str × Bool :=
  match maxDigits with
  | Option.none => (digits, false)
  | Option.some m =>
    if m = 0 then (digits, false)
    else
      let integerDigits := digits.length - fractionDigits
      if integerDigits ≤ m then (digits, false)
      else
        let totalAllowed := m + fractionDigits
        (digits.drop (digits.length - totalAllowed), true)

/-- The abstract platform currency formatter
(minimum fraction digits, maximum fraction digits, value). -/
abbrev Fmt := ℕ → ℕ → ℚ → Str

/-- `formatCurrency` (`src/core/currency.ts`): `""` for `null`, otherwise the
platform `Intl.NumberFormat` grouped rendering, abstracted as `fmt`. -/
def formatCurrency (fmt : Fmt) (fractionDigits minimumFractionDigits
    maximumFractionDigits : Option ℕ) (value : Option ℚ) : Str :=
  let r := resolveFractionDigits fractionDigits minimumFractionDigits
    maximumFractionDigits
  match value with
  | Option.none => []
  | Option.some v => fmt r.1 r.2 v

/-- `parseCurrencyFromDigits` (`src/core/currency.ts`): digit string → value,
with sign application, negative-disallowed replacement, then min/max clamp. -/
def parseCurrencyFromDigits (digits : Str) (o : ParseOptions) : Option ℚ :=
  let maxFractionDigits := (resolveOf o).2
  let sanitized := stripToDigits digits
  if sanitized = [] then Option.none
  else
    let limited := (applyMaxDigits sanitized maxFractionDigits o.maxDigits).1
    let factor : ℚ := 10 ^ maxFractionDigits
    let v0 : ℚ := (jsNumber limited : ℚ) / factor
    let v1 : ℚ := if o.isNegative && o.allowNegative then -v0 else v0
    let v2 : ℚ :=
      if !o.allowNegative && decide (v1 < 0) then o.minimumValue.getD 0 else v1
    let v3 : ℚ :=
      match o.minimumValue with
      | Option.some mn => if v2 < mn then mn else v2
      | Option.none => v2
    let v4 : ℚ :=
      match o.maximumValue with
      | Option.some mx => if v3 > mx then mx else v3
      | Option.none => v3
    Option.some v4

/-- `digitsFromValue` (`src/core/currency.ts`): value → scaled digit string
plus sign. -/
def digitsFromValue (value : Option ℚ) (fractionDigits : ℕ) : Str × Bool :=
  match value with
  | Option.none => ([], false)
  | Option.some v =>
    let factor : ℚ := 10 ^ fractionDigits
    (natToStr (jsRound (|v| * factor)).toNat, decide (v < 0))

/-- `FormatResult` (`src/core/Formatter.types.ts`). -/
structure FormatResult where
  text : Str
  rawValue : Str
deriving DecidableEq

/-- The two mask modes (`CurrencyFormatterMode`): `"currency"` and `"none"`
(raw digits against the locale decimal separator). -/
inductive Mask where
  | currency
  | raw
deriving DecidableEq

/-- `formatRawDigits` (`src/core/currency.ts`): render a digit string either
through the platform currency formatter or as raw locale-decimal text.
`fmt`/`sep` abstract the `Intl` collaborators (`sep = getDecimalSeparator`). -/
def formatRawDigits (fmt : Fmt) (sep : Char) (digits : Str)
    (o : ParseOptions) (mask : Mask) (isNegative : Bool) : FormatResult :=
  let minFractionDigits := (resolveOf o).1
  let maxFractionDigits := (resolveOf o).2
  let value := parseCurrencyFromDigits digits
    { o with fractionDigits := Option.some maxFractionDigits,
             isNegative := isNegative }
  match mask with
  | Mask.currency =>
    { text := formatCurrency fmt Option.none (Option.some minFractionDigits)
        (Option.some maxFractionDigits) value,
      rawValue := digits }
  | Mask.raw =>
    if digits = [] then { text := [], rawValue := [] }
    else
      let padded := padStart digits (maxFractionDigits + 1) '0'
      let integerPart := padded.take (padded.length - maxFractionDigits)
      let decimalPart :=
        if maxFractionDigits > 0 then padded.drop (padded.length - maxFractionDigits)
        else []
      let normalizedInteger := stripLeadingZeros integerPart
      let text :=
        if maxFractionDigits = 0 then
          (if isNegative then ['-'] else []) ++ normalizedInteger
        else
          (if isNegative then ['-'] else []) ++ normalizedInteger
            ++ [sep] ++ decimalPart
      { text := text, rawValue := digits }

/-! ## The input-session state machine (`src/hooks/useCurrencyInput.ts`)

The hook's reactive state (`value`, `text`, `rawDigits`, `isNegative`,
`error`) is modelled as an explicit `EngineState`; each event handler is a
pure transition on it.  The configuration captured by the hook's props is a
`Config`. -/

/-- The hook's configuration (`UseCurrencyInputOptions` minus the controlled
`value` prop, plus the abstracted `Intl` collaborators). -/
structure Config where
  fractionDigits : Option ℕ := Option.none
  minimumFractionDigits : Option ℕ := Option.none
  maximumFractionDigits : Option ℕ := Option.none
  minimumValue : Option ℚ := Option.none
  maximumValue : Option ℚ := Option.none
  allowNegative : Bool := false
  maxDigits : Option ℕ := Option.none
  mask : Mask := Mask.currency
  validate : Option ℚ → Option String := fun _ => Option.none
  fmt : Fmt := fun _ _ _ => []
  sep : Char := '.'

/-- The session state owned by the hook. -/
structure EngineState where
  value : Option ℚ
  text : Str
  rawDigits : Str
  isNegative : Bool
  error : Option String
deriving DecidableEq

/-- The `parsingOptions` memo of the hook (no `isNegative`: `undefined` is
falsy). -/
def parsingOptions (cfg : Config) : ParseOptions :=
  { fractionDigits := cfg.fractionDigits,
    minimumFractionDigits := cfg.minimumFractionDigits,
    maximumFractionDigits := cfg.maximumFractionDigits,
    minimumValue := cfg.minimumValue,
    maximumValue := cfg.maximumValue,
    allowNegative := cfg.allowNegative,
    maxDigits := cfg.maxDigits,
    isNegative := false }

/-- The hook's resolved `maxFractionDigits`. -/
def maxFractionDigits (cfg : Config) : ℕ :=
  (resolveFractionDigits cfg.fractionDigits cfg.minimumFractionDigits
    cfg.maximumFractionDigits).2

/-- The hook's resolved `minFractionDigits`. -/
def minFractionDigits (cfg : Config) : ℕ :=
  (resolveFractionDigits cfg.fractionDigits cfg.minimumFractionDigits
    cfg.maximumFractionDigits).1

/-- `clampIncomingValue` (`src/hooks/useCurrencyInput.ts`): negative-disallowed
replacement by `minimumValue ?? 0`, then min clamp, then max clamp. -/
def clampIncomingValue (incoming : Option ℚ) (allowNegative : Bool)
    (minimumValue maximumValue : Option ℚ) : Option ℚ :=
  match incoming with
  | Option.none => Option.none
  | Option.some x =>
    let n1 : ℚ :=
      if !allowNegative && decide (x < 0) then minimumValue.getD 0 else x
    let n2 : ℚ :=
      match minimumValue with
      | Option.some mn => if n1 < mn then mn else n1
      | Option.none => n1
    let n3 : ℚ :=
      match maximumValue with
      | Option.some mx => if n2 > mx then mx else n2
      | Option.none => n2
    Option.some n3

/-- The `messages.push` block for the digit cap in `buildError`
(`if (hitMaxDigits && maxDigits)` — a zero cap is falsy). -/
def capMessageList (maxDigits : Option ℕ) (hitMaxDigits : Bool) :
    List String :=
  match maxDigits with
  | Option.some m =>
    if hitMaxDigits && !(m = 0 : Bool) then
      ["Maximum digits is " ++ Nat.repr m]
    else []
  | Option.none => []

/-- The `messages.push` block for a disallowed negative in `buildError`. -/
def negativeMessageList (allowNegative isNegative : Bool) : List String :=
  if !allowNegative && isNegative then ["Negative values are not allowed"]
  else []

/-- The `messages.push` block for a below-minimum value in `buildError`. -/
def belowMessageList (value minimumValue : Option ℚ) : List String :=
  match value, minimumValue with
  | Option.some v, Option.some mn =>
    if v < mn then ["Value must be >= " ++ toString mn] else []
  | _, _ => []

/-- The `messages.push` block for an above-maximum value in `buildError`. -/
def aboveMessageList (value maximumValue : Option ℚ) : List String :=
  match value, maximumValue with
  | Option.some v, Option.some mx =>
    if v > mx then ["Value must be <= " ++ toString mx] else []
  | _, _ => []

/-- `buildError` (`src/hooks/useCurrencyInput.ts`): compose the structural
messages in order (cap, disallowed negative, below minimum, above maximum)
and let a truthy custom-validator result override; `messages[0] ?? null`
otherwise.  A custom result of `""` is JS-falsy and falls through. -/
def buildError (value : Option ℚ) (isNegative : Bool) (maxDigits : Option ℕ)
    (hitMaxDigits : Bool) (minimumValue maximumValue : Option ℚ)
    (allowNegative : Bool) (validate : Option ℚ → Option String) :
    Option String :=
  let messages : List String :=
    capMessageList maxDigits hitMaxDigits
      ++ negativeMessageList allowNegative isNegative
      ++ belowMessageList value minimumValue
      ++ aboveMessageList value maximumValue
  match validate value with
  | Option.some custom => if custom = "" then messages.head? else Option.some custom
  | Option.none => messages.head?

/-- `buildError` with the arguments the hook always passes from `cfg`. -/
def buildErrorOf (cfg : Config) (value : Option ℚ) (isNegative : Bool)
    (hitMaxDigits : Bool) : Option String :=
  buildError value isNegative cfg.maxDigits hitMaxDigits cfg.minimumValue
    cfg.maximumValue cfg.allowNegative cfg.validate

/-- `applyFormattedState` (`src/hooks/useCurrencyInput.ts`): replace the whole
session state; when no `textOverride` is given, render through
`formatRawDigits`. -/
def applyFormattedState (cfg : Config) (nextValue : Option ℚ) (digits : Str)
    (negative : Bool) (hitMaxDigits : Bool) (textOverride : Option Str) :
    EngineState :=
  match textOverride with
  | Option.some t =>
    { value := nextValue, text := t, rawDigits := digits,
      isNegative := negative,
      error := buildErrorOf cfg nextValue negative hitMaxDigits }
  | Option.none =>
    let formatted := formatRawDigits cfg.fmt cfg.sep digits
      (parsingOptions cfg) cfg.mask negative
    { value := nextValue, text := formatted.text,
      rawDigits := formatted.rawValue, isNegative := negative,
      error := buildErrorOf cfg nextValue negative hitMaxDigits }

/-- `normaliseValue` (`src/hooks/useCurrencyInput.ts`): clamp → encode →
cap → decode, used by the programmatic `setValue` path. -/
def normaliseValue (incoming : Option ℚ) (o : ParseOptions)
    (fractionDigits : ℕ) : Option ℚ × Str × Bool × Bool :=
  let clampedValue := clampIncomingValue incoming o.allowNegative
    o.minimumValue o.maximumValue
  let encoded := digitsFromValue clampedValue fractionDigits
  let limited := applyMaxDigits encoded.1 fractionDigits o.maxDigits
  let parsedValue := parseCurrencyFromDigits limited.1
    { o with isNegative := encoded.2,
             fractionDigits := Option.some fractionDigits }
  (parsedValue, limited.1, o.allowNegative && encoded.2, limited.2)

/-- `setValue` (`src/hooks/useCurrencyInput.ts`): the programmatic-set
transition.  The previous state is replaced wholesale (the hook never reads
it on this path). -/
def setValue (cfg : Config) (_s : EngineState) (next : Option ℚ) :
    EngineState :=
  let n := normaliseValue next (parsingOptions cfg) (maxFractionDigits cfg)
  applyFormattedState cfg n.1 n.2.1 n.2.2.1 n.2.2.2 Option.none

/-! ### `handleChangeText` -/

/-- Raw ("none") mode: the cleaned text (digits, locale separator, '-'). -/
def rawCleaned (cfg : Config) (inputText : Str) : Str :=
  inputText.filter (fun c => c.isDigit || c == cfg.sep || c == '-')

/-- Raw mode: split the unsigned cleaned text at the locale separator. -/
def rawParts (cfg : Config) (inputText : Str) : List Str :=
  ((rawCleaned cfg inputText).filter (fun c => !(c == '-'))).splitOn cfg.sep

/-- Raw mode: the integer part of the typed text (`parts[0] ?? ""`). -/
def rawIntPart (cfg : Config) (inputText : Str) : Str :=
  (rawParts cfg inputText).headD []

/-- Raw mode: the fraction part (`parts.slice(1).join("")`). -/
def rawFracPart (cfg : Config) (inputText : Str) : Str :=
  ((rawParts cfg inputText).drop 1).flatten

/-- Currency mode: `allowFraction = maxFractionDigits > 0`. -/
def currencyAllowFraction (cfg : Config) : Bool :=
  decide (0 < maxFractionDigits cfg)

/-- Currency mode: the cleaned text (digits, '-', and the locale separator
only when fractions are allowed). -/
def currencyCleaned (cfg : Config) (inputText : Str) : Str :=
  inputText.filter (fun c =>
    c.isDigit || (currencyAllowFraction cfg && c == cfg.sep) || c == '-')

/-- Currency mode: the separator split of the unsigned cleaned text
(no split when fractions are disallowed). -/
def currencyParts (cfg : Config) (inputText : Str) : List Str :=
  let unsigned := (currencyCleaned cfg inputText).filter (fun c => !(c == '-'))
  if currencyAllowFraction cfg then unsigned.splitOn cfg.sep else [unsigned]

/-- Currency mode: the integer part of the typed text. -/
def currencyIntPart (cfg : Config) (inputText : Str) : Str :=
  (currencyParts cfg inputText).headD []

/-- Currency mode: the fraction part of the typed text. -/
def currencyFracPart (cfg : Config) (inputText : Str) : Str :=
  if currencyAllowFraction cfg then ((currencyParts cfg inputText).drop 1).flatten
  else []

/-- The digit-cap rejection test `maxDigits && intPartRaw.length > maxDigits`
(`maxDigits = 0` is falsy). -/
def capRejects (maxDigits : Option ℕ) (intPartRaw : Str) : Bool :=
  match maxDigits with
  | Option.some m => !(m = 0 : Bool) && decide (intPartRaw.length > m)
  | Option.none => false

/-- Raw mode: `digitsOnly`, the digit stream actually kept. -/
def rawDigitsOnly (cfg : Config) (inputText : Str) : Str :=
  stripToDigits (rawIntPart cfg inputText ++ rawFracPart cfg inputText)

/-- Raw mode: the unsigned numeric magnitude parsed from the typed integer
and fraction parts (`Number(normalizedInt) + fractionValue`). -/
def rawNumericBase (cfg : Config) (inputText : Str) : ℚ :=
  (jsNumber (stripLeadingZeros (rawIntPart cfg inputText)) : ℚ)
    + (if (rawFracPart cfg inputText).length > 0 then
         (jsNumber (rawFracPart cfg inputText) : ℚ)
           / 10 ^ (rawFracPart cfg inputText).length
       else 0)

/-- Raw mode: the sign-adjusted numeric value of the typed text. -/
def rawNumeric (cfg : Config) (inputText : Str) (nextNegative : Bool) : ℚ :=
  if cfg.allowNegative && nextNegative then -(rawNumericBase cfg inputText)
  else rawNumericBase cfg inputText

/-- The `mask === "none"` section of `handleChangeText`. -/
def handleChangeTextRaw (cfg : Config) (s : EngineState) (inputText : Str)
    (nextNegative : Bool) : EngineState :=
  let cleaned := rawCleaned cfg inputText
  let hasSeparator := cleaned.contains cfg.sep
  let endsWithSeparator := cleaned.getLast? == Option.some cfg.sep
  if capRejects cfg.maxDigits (rawIntPart cfg inputText) then
    { s with error := buildErrorOf cfg s.value s.isNegative true }
  else
    if rawDigitsOnly cfg inputText = [] then
      applyFormattedState cfg Option.none [] false false Option.none
    else
      let parsedValue := clampIncomingValue
        (Option.some (rawNumeric cfg inputText nextNegative))
        cfg.allowNegative cfg.minimumValue cfg.maximumValue
      let textValue :=
        (if cfg.allowNegative && nextNegative then ['-'] else [])
          ++ stripLeadingZeros (rawIntPart cfg inputText)
          ++ (if hasSeparator || endsWithSeparator then [cfg.sep] else [])
          ++ rawFracPart cfg inputText
      applyFormattedState cfg parsedValue (rawDigitsOnly cfg inputText)
        (cfg.allowNegative && nextNegative) false (Option.some textValue)

/-- Currency mode: the typed fraction digits after the fraction cap
(`fracPartRaw.slice(0, maxFractionDigits)`). -/
def currencyFracLimited (cfg : Config) (inputText : Str) : Str :=
  if currencyAllowFraction cfg then
    (currencyFracPart cfg inputText).take (maxFractionDigits cfg)
  else []

/-- Currency mode: `digitsOnly`, the digit stream actually kept. -/
def currencyDigitsOnly (cfg : Config) (inputText : Str) : Str :=
  stripToDigits (currencyIntPart cfg inputText ++ currencyFracLimited cfg inputText)

/-- Currency mode: the unsigned numeric magnitude parsed from the typed
integer and (capped) fraction parts. -/
def currencyNumericBase (cfg : Config) (inputText : Str) : ℚ :=
  (jsNumber (stripLeadingZeros (currencyIntPart cfg inputText)) : ℚ)
    + (if (currencyFracLimited cfg inputText).length > 0 then
         (jsNumber (currencyFracLimited cfg inputText) : ℚ)
           / 10 ^ (currencyFracLimited cfg inputText).length
       else 0)

/-- Currency mode: the sign-adjusted numeric value of the typed text. -/
def currencyNumeric (cfg : Config) (inputText : Str) (nextNegative : Bool) :
    ℚ :=
  if cfg.allowNegative && nextNegative then -(currencyNumericBase cfg inputText)
  else currencyNumericBase cfg inputText

/-- The currency-mask section of `handleChangeText` (natural left-to-right
typing with an optional decimal separator). -/
def handleChangeTextCurrency (cfg : Config) (s : EngineState)
    (inputText : Str) (nextNegative : Bool) : EngineState :=
  let allowFraction := currencyAllowFraction cfg
  let maxF := maxFractionDigits cfg
  let cleaned := currencyCleaned cfg inputText
  if capRejects cfg.maxDigits (currencyIntPart cfg inputText) then
    { s with error := buildErrorOf cfg s.value s.isNegative true }
  else
    if currencyDigitsOnly cfg inputText = [] then
      if allowFraction && cleaned == [cfg.sep] then
        let base := formatCurrency cfg.fmt Option.none (Option.some 0)
          (Option.some maxF)
          (Option.some (if cfg.allowNegative && nextNegative then -0 else 0))
        let textValue := base ++ [cfg.sep]
        applyFormattedState cfg (Option.some 0) ['0']
          (cfg.allowNegative && nextNegative) false (Option.some textValue)
      else
        applyFormattedState cfg Option.none [] false false Option.none
    else
      let clamped := clampIncomingValue
        (Option.some (currencyNumeric cfg inputText nextNegative))
        cfg.allowNegative cfg.minimumValue cfg.maximumValue
      let formattedText :=
        if !allowFraction then
          formatCurrency cfg.fmt Option.none (Option.some 0) (Option.some 0)
            clamped
        else
          let endsWithSeparator :=
            allowFraction && (cleaned.getLast? == Option.some cfg.sep)
          let minFrac :=
            if (currencyFracLimited cfg inputText).length > 0 then
              (currencyFracLimited cfg inputText).length
            else 0
          let base := formatCurrency cfg.fmt Option.none (Option.some minFrac)
            (Option.some maxF) clamped
          if endsWithSeparator then base ++ [cfg.sep] else base
      applyFormattedState cfg clamped (currencyDigitsOnly cfg inputText)
        (cfg.allowNegative && nextNegative) false (Option.some formattedText)

/-- `minusCount`: '-' occurrences in the typed text, counted only when
negatives are allowed. -/
def minusCountOf (cfg : Config) (inputText : Str) : ℕ :=
  if cfg.allowNegative then inputText.count '-' else 0

/-- `nextNegative`: odd sign-toggle parity (and negatives allowed). -/
def nextNegativeOf (cfg : Config) (inputText : Str) : Bool :=
  cfg.allowNegative && decide (minusCountOf cfg inputText % 2 = 1)

/-- `handleChangeText` (`src/hooks/useCurrencyInput.ts`): the text-change
transition of the session. -/
def handleChangeText (cfg : Config) (s : EngineState) (inputText : Str) :
    EngineState :=
  if inputText = [] then
    applyFormattedState cfg Option.none [] false false Option.none
  else
    match cfg.mask with
    | Mask.raw =>
      handleChangeTextRaw cfg s inputText (nextNegativeOf cfg inputText)
    | Mask.currency =>
      handleChangeTextCurrency cfg s inputText (nextNegativeOf cfg inputText)

/-! ## Shared concrete instances for witnesses and counterexamples -/

/-- The empty session state. -/
def sEmpty : EngineState :=
  { value := Option.none, text := [], rawDigits := [], isNegative := false,
    error := Option.none }

/-! ## Claims -/

/-- C10: `applyMaxDigits` treats a cap of zero the same as an absent cap:
for every digit string and fraction count, a cap of `0` passes the digits
through unchanged with `hitMaxDigits = false`. -/
theorem claim_C10_zero_cap_passthrough (d : Str) (f : ℕ) :
    applyMaxDigits d f (Option.some 0) = applyMaxDigits d f Option.none
      ∧ applyMaxDigits d f (Option.some 0) = (d, false) := by
  constructor <;> rfl

/-- C5: for a positive cap `m`, if the integer-digit count
`max(0, len d − f)` exceeds `m` then `applyMaxDigits` keeps exactly the last
`m + f` characters (so the result has length `m + f`) and reports
`hitMaxDigits = true`; otherwise it passes the digits through unchanged with
`hitMaxDigits = false`. -/
theorem claim_C5_cap_window (d : Str) (f m : ℕ) (hm : 0 < m) :
    (d.length - f > m →
      applyMaxDigits d f (Option.some m) = (d.drop (d.length - (m + f)), true)
        ∧ ((applyMaxDigits d f (Option.some m)).1).length = m + f)
    ∧ (d.length - f ≤ m → applyMaxDigits d f (Option.some m) = (d, false)) := by
  simp only [applyMaxDigits]
  rw [if_neg (by omega : ¬ m = 0)]
  constructor
  · intro h
    rw [if_neg (by omega : ¬ d.length - f ≤ m)]
    refine ⟨rfl, ?_⟩
    simp only [List.length_drop]
    omega
  · intro h
    rw [if_pos h]

theorem claim_C5_cap_window_witness :
    applyMaxDigits (strOf "1234") 1 (Option.some 2)
        = ((strOf "1234").drop ((strOf "1234").length - (2 + 1)), true)
      ∧ ((applyMaxDigits (strOf "1234") 1 (Option.some 2)).1).length = 2 + 1 :=
  (claim_C5_cap_window (strOf "1234") 1 2 (by decide)).1 (by decide)

/-- C9: the programmatic `setValue` transition is idempotent: applying it
twice with the same value yields the same session state as applying it once
(the state is recomputed wholesale from the value and configuration). -/
theorem claim_C9_setValue_idempotent (cfg : Config) (s : EngineState)
    (v : Option ℚ) :
    setValue cfg (setValue cfg s v) v = setValue cfg s v := rfl

/-! ### C1 — empty input -/

/-- Session used to refute C1: a custom validator that reports a message for
the null value. -/
def cfgC1 : Config := { validate := fun _ => Option.some "Required" }

/-- A populated prior state for the C1 counterexample. -/
def sC1 : EngineState :=
  { value := Option.some 5, text := strOf "$5.00", rawDigits := strOf "500",
    isNegative := false, error := Option.none }

/-- C1 counterexample: clearing the text does NOT always clear the error —
the caller-supplied `validate` is still consulted on the empty state, and its
message becomes the error. -/
theorem claim_C1_counterexample :
    (handleChangeText cfgC1 sC1 []).error = Option.some "Required" := by
  decide

/-- C1 (amended): `handleChangeText` on the empty string always resets the
session to `value = null`, `text = ""`, `rawDigits = ""`, sign cleared, and
clears every structural error; the resulting error is the caller-supplied
`validate(null)` when that returns a non-empty string, and `null`
otherwise. -/
theorem claim_C1_empty_clears_amended (cfg : Config) (s : EngineState) :
    handleChangeText cfg s [] =
      { value := Option.none, text := [], rawDigits := [],
        isNegative := false,
        error :=
          match cfg.validate Option.none with
          | Option.some m => if m = "" then Option.none else Option.some m
          | Option.none => Option.none } := by
  have hber : buildErrorOf cfg Option.none false false =
      match cfg.validate Option.none with
      | Option.some m => if m = "" then Option.none else Option.some m
      | Option.none => Option.none := by
    unfold buildErrorOf buildError
    cases cfg.maxDigits <;>
      simp [capMessageList, negativeMessageList, belowMessageList,
        aboveMessageList, Bool.and_false, Bool.false_and]
  unfold handleChangeText
  rw [if_pos rfl]
  unfold applyFormattedState
  cases hm : cfg.mask <;>
    simp [formatRawDigits, parseCurrencyFromDigits, stripToDigits,
      formatCurrency, hber, hm]

/-! ### C3 — clamping order and negative bounds -/

/-- C3 counterexample: with negatives disallowed, a negative `minimumValue`
is still used as the replacement for a negative incoming value, so the
clamped result CAN be negative. -/
theorem claim_C3_counterexample :
    clampIncomingValue (Option.some (-3)) false (Option.some (-10))
        Option.none = Option.some (-10)
      ∧ ((-10 : ℚ) < 0) := by
  constructor
  · decide
  · norm_num

/-- C3 (amended): the negative-disallowed rule indeed runs before the min/max
clamp, but it substitutes `minimumValue ?? 0`, so the result is guaranteed
non-negative only when every configured bound is non-negative: in
`parseCurrencyFromDigits` a non-negative (or absent) `maximumValue` suffices
(the magnitude is never negated when negatives are disallowed), and in
`clampIncomingValue` both bounds must be non-negative or absent. -/
theorem claim_C3_nonneg_amended :
    (∀ (d : Str) (o : ParseOptions), o.allowNegative = false →
        (∀ q, o.maximumValue = Option.some q → 0 ≤ q) →
        ∀ v, parseCurrencyFromDigits d o = Option.some v → 0 ≤ v)
    ∧ (∀ (x : ℚ) (minimumValue maximumValue : Option ℚ),
        (∀ q, minimumValue = Option.some q → 0 ≤ q) →
        (∀ q, maximumValue = Option.some q → 0 ≤ q) →
        ∀ v, clampIncomingValue (Option.some x) false minimumValue
            maximumValue = Option.some v → 0 ≤ v) := by
  constructor
  · intro d o han hmax v hv
    simp only [parseCurrencyFromDigits, han, Bool.and_false, Bool.not_false,
      Bool.true_and, Bool.false_eq_true, if_false, Option.getD_none,
      decide_eq_true_eq] at hv
    by_cases hs : stripToDigits d = []
    · rw [if_pos hs] at hv
      exact absurd hv (by simp)
    · rw [if_neg hs] at hv
      have h0 : (0 : ℚ) ≤
          (jsNumber (applyMaxDigits (stripToDigits d)
            (resolveOf o).2 o.maxDigits).1 : ℚ) / 10 ^ (resolveOf o).2 := by
        positivity
      rw [Option.some_inj] at hv
      subst hv
      rcases hmn : o.minimumValue with _ | lo <;>
        rcases hmx : o.maximumValue with _ | hi <;>
          simp only [hmn, hmx] <;> split_ifs <;>
          first
            | exact h0
            | (exact hmax _ hmx)
            | linarith
  · intro x mn mx hmn hmx v hv
    simp only [clampIncomingValue, Bool.not_false, Bool.true_and,
      decide_eq_true_eq] at hv
    rw [Option.some_inj] at hv
    subst hv
    rcases hmn' : mn with _ | lo <;> rcases hmx' : mx with _ | hi <;>
      simp only [hmn', hmx', Option.getD_none, Option.getD_some] <;>
      split_ifs <;>
      first
        | linarith
        | (exact hmn _ hmn')
        | (exact hmx _ hmx')

theorem claim_C3_nonneg_amended_witness :
    clampIncomingValue (Option.some (-3)) false (Option.some 2) Option.none
        = Option.some 2
      ∧ (0 : ℚ) ≤ 2 := by
  refine ⟨by decide, ?_⟩
  exact claim_C3_nonneg_amended.2 (-3) (Option.some 2) Option.none
    (fun q hq => by injection hq with h; rw [← h]; norm_num)
    (fun q hq => by cases hq)
    2 (by decide)

/-! ### C4 — validation-message precedence -/

/-- C4 counterexample: `validate` returning the non-null empty string `""`
does NOT become the error (JS truthiness lets it fall through to the
structural messages — here to `null`). -/
theorem claim_C4_counterexample :
    buildError (Option.some 5) false Option.none false Option.none
        Option.none true (fun _ => Option.some "") = Option.none := by
  decide

/-- The validation composition as the specification describes it (§4.7):
first structural match wins in the fixed order digit-cap, disallowed
negative, below-minimum, above-maximum; a custom-validator result overrides
everything.  Amended per the code's JS truthiness: the custom result
overrides only when non-empty, and a zero cap counts as unset. -/
def capMessage (maxIntegerDigits : Option ℕ) (wasCapped : Bool) :
    Option String :=
  match maxIntegerDigits with
  | Option.some m =>
    if wasCapped && !(m = 0 : Bool) then
      Option.some ("Maximum digits is " ++ Nat.repr m)
    else Option.none
  | Option.none => Option.none

/-- Specification step 2: the disallowed-negative message. -/
def signMessage (allowNegative sign : Bool) : Option String :=
  if !allowNegative && sign then
    Option.some "Negative values are not allowed"
  else Option.none

/-- Specification step 3: the below-minimum message. -/
def belowMessage (value minimumValue : Option ℚ) : Option String :=
  match value, minimumValue with
  | Option.some v, Option.some mn =>
    if v < mn then Option.some ("Value must be >= " ++ toString mn)
    else Option.none
  | _, _ => Option.none

/-- Specification step 4: the above-maximum message. -/
def aboveMessage (value maximumValue : Option ℚ) : Option String :=
  match value, maximumValue with
  | Option.some v, Option.some mx =>
    if v > mx then Option.some ("Value must be <= " ++ toString mx)
    else Option.none
  | _, _ => Option.none

def composeSpec (value : Option ℚ) (sign : Bool) (allowNegative : Bool)
    (maxIntegerDigits : Option ℕ) (wasCapped : Bool)
    (minimumValue maximumValue : Option ℚ)
    (customValidator : Option ℚ → Option String) : Option String :=
  let structural :=
    (capMessage maxIntegerDigits wasCapped).orElse fun _ =>
      (signMessage allowNegative sign).orElse fun _ =>
        (belowMessage value minimumValue).orElse fun _ =>
          aboveMessage value maximumValue
  match customValidator value with
  | Option.some custom =>
    if custom = "" then structural else Option.some custom
  | Option.none => structural

/-- `head?` distributes over append as a first-match choice. -/
theorem head?_append_orElse {α : Type} (l1 l2 : List α) :
    (l1 ++ l2).head? = l1.head?.orElse fun _ => l2.head? := by
  cases l1 <;> simp [Option.orElse]

theorem capMessageList_head (md : Option ℕ) (hc : Bool) :
    (capMessageList md hc).head? = capMessage md hc := by
  cases md with
  | none => rfl
  | some m =>
    simp only [capMessageList, capMessage]
    split_ifs <;> rfl

theorem negativeMessageList_head (a s : Bool) :
    (negativeMessageList a s).head? = signMessage a s := by
  unfold negativeMessageList signMessage
  split_ifs <;> rfl

theorem belowMessageList_head (v mn : Option ℚ) :
    (belowMessageList v mn).head? = belowMessage v mn := by
  cases v with
  | none => rfl
  | some a =>
    cases mn with
    | none => rfl
    | some b =>
      simp only [belowMessageList, belowMessage]
      split_ifs <;> rfl

theorem aboveMessageList_head (v mx : Option ℚ) :
    (aboveMessageList v mx).head? = aboveMessage v mx := by
  cases v with
  | none => rfl
  | some a =>
    cases mx with
    | none => rfl
    | some b =>
      simp only [aboveMessageList, aboveMessage]
      split_ifs <;> rfl

/-- C4 (amended): `buildError` composes exactly as the specification's
fixed-precedence description, with one amendment forced by the code: a
custom `validate` result wins only when it is a non-empty string (a returned
`""` is JS-falsy and falls back to the structural message). -/
theorem claim_C4_custom_precedence_amended (value : Option ℚ)
    (sign allowNegative : Bool) (maxDigits : Option ℕ) (wasCapped : Bool)
    (minimumValue maximumValue : Option ℚ)
    (validate : Option ℚ → Option String) :
    buildError value sign maxDigits wasCapped minimumValue maximumValue
        allowNegative validate
      = composeSpec value sign allowNegative maxDigits wasCapped
          minimumValue maximumValue validate := by
  unfold buildError composeSpec
  rcases hcv : validate value with _ | c <;>
    simp only [hcv, List.append_assoc, head?_append_orElse,
      capMessageList_head, negativeMessageList_head, belowMessageList_head,
      aboveMessageList_head]

/-! ### C7 — raw-mode rendering -/

/-- C7 counterexample: in raw mode the `'-'` marker follows the sign flag
alone — here it is rendered even though `allowNegative = false`. -/
theorem claim_C7_counterexample :
    (formatRawDigits (fun _ _ _ => []) '.' (strOf "5")
        { allowNegative := false } Mask.raw true).text = strOf "-0.05" := by
  decide

/-- Raw-mode rendering as the specification words it (§4.6): left-pad with
zeros to at least `fractionDigits + 1` characters, split into integer and
fraction parts, strip leading zeros from the integer part keeping at least
one digit, join with the locale separator (omitted when
`fractionDigits = 0`), and put a sign marker first.  Amended: the marker
appears exactly when the sign flag is set (the source does not consult
`allowNegative` here). -/
def rawModeRenderSpec (sep : Char) (fractionDigits : ℕ) (digits : Str)
    (sign : Bool) : Str :=
  let padded := List.replicate (fractionDigits + 1 - digits.length) '0' ++ digits
  let integerPart := padded.take (padded.length - fractionDigits)
  let fractionPart := padded.drop (padded.length - fractionDigits)
  let strippedInteger :=
    let t := integerPart.dropWhile (fun c => c == '0')
    if t = [] then ['0'] else t
  (if sign then ['-'] else [])
    ++ strippedInteger
    ++ (if fractionDigits = 0 then [] else sep :: fractionPart)

/-- C7 (amended): for every digit string, raw ("none") mask rendering is
exactly the specification's pad/split/strip/join construction over the
resolved maximum fraction-digit count, with the `'-'` marker exactly when
the sign flag is true; empty digits render as the empty text. -/
theorem claim_C7_raw_render_amended (fmt : Fmt) (sep : Char) (digits : Str)
    (o : ParseOptions) (isNeg : Bool) :
    formatRawDigits fmt sep digits o Mask.raw isNeg =
      if digits = [] then { text := [], rawValue := [] }
      else { text := rawModeRenderSpec sep (resolveOf o).2 digits isNeg,
             rawValue := digits } := by
  by_cases hd : digits = []
  · simp [formatRawDigits, hd]
  · rw [if_neg hd]
    simp only [formatRawDigits, rawModeRenderSpec, stripLeadingZeros,
      padStart]
    rw [if_neg hd]
    by_cases hf : (resolveOf o).2 = 0
    · simp [hf]
    · have hf' : (resolveOf o).2 > 0 := Nat.pos_of_ne_zero hf
      simp [hf, hf', List.append_assoc, List.singleton_append]

/-! ### C2 — live-typing digit-cap rejection -/

theorem buildErrorOf_cap (cfg : Config) (v : Option ℚ) (neg : Bool) (m : ℕ)
    (hmd : cfg.maxDigits = Option.some m) (hm : m ≠ 0)
    (hval : ∀ x, cfg.validate x = Option.none) :
    buildErrorOf cfg v neg true
      = Option.some ("Maximum digits is " ++ Nat.repr m) := by
  unfold buildErrorOf buildError
  rw [hval]
  simp [capMessageList, hmd, hm]

/-- C2 (amended): in both mask modes, when the typed integer part is longer
than a configured (nonzero) `maxDigits`, the change is rejected: the state
keeps its previous `value`, `text`, `rawDigits` and sign, and only the error
is recomposed with the cap flag set — which yields
`"Maximum digits is {maxDigits}"` whenever no custom validator message
overrides it. -/
theorem claim_C2_cap_reject_amended (cfg : Config) (s : EngineState)
    (t : Str) (m : ℕ) (hmd : cfg.maxDigits = Option.some m) (hm : 0 < m)
    (ht : t ≠ []) :
    (cfg.mask = Mask.currency → (currencyIntPart cfg t).length > m →
        handleChangeText cfg s t
          = { s with error := buildErrorOf cfg s.value s.isNegative true }
        ∧ ((∀ x, cfg.validate x = Option.none) →
            handleChangeText cfg s t
              = { s with error :=
                    Option.some ("Maximum digits is " ++ Nat.repr m) }))
    ∧ (cfg.mask = Mask.raw → (rawIntPart cfg t).length > m →
        handleChangeText cfg s t
          = { s with error := buildErrorOf cfg s.value s.isNegative true }
        ∧ ((∀ x, cfg.validate x = Option.none) →
            handleChangeText cfg s t
              = { s with error :=
                    Option.some ("Maximum digits is " ++ Nat.repr m) })) := by
  have hm' : m ≠ 0 := Nat.pos_iff_ne_zero.mp hm
  constructor
  · intro hmask hlen
    have hcap : capRejects cfg.maxDigits (currencyIntPart cfg t) = true := by
      simp [capRejects, hmd, hm', hlen]
    have hstep : handleChangeText cfg s t
        = { s with error := buildErrorOf cfg s.value s.isNegative true } := by
      unfold handleChangeText
      rw [if_neg ht, hmask]
      unfold handleChangeTextCurrency
      rw [if_pos hcap]
    refine ⟨hstep, fun hval => ?_⟩
    rw [hstep, buildErrorOf_cap cfg s.value s.isNegative m hmd hm' hval]
  · intro hmask hlen
    have hcap : capRejects cfg.maxDigits (rawIntPart cfg t) = true := by
      simp [capRejects, hmd, hm', hlen]
    have hstep : handleChangeText cfg s t
        = { s with error := buildErrorOf cfg s.value s.isNegative true } := by
      unfold handleChangeText
      rw [if_neg ht, hmask]
      unfold handleChangeTextRaw
      rw [if_pos hcap]
    refine ⟨hstep, fun hval => ?_⟩
    rw [hstep, buildErrorOf_cap cfg s.value s.isNegative m hmd hm' hval]

/-- Configuration for the C2 witness (Scenario D): `maxDigits = 2`, currency
mask, no custom validator. -/
def cfgC2 : Config := { maxDigits := Option.some 2 }

theorem claim_C2_cap_reject_amended_witness :
    handleChangeText cfgC2 sEmpty (strOf "1234")
      = { sEmpty with error := Option.some "Maximum digits is 2" } := by
  have h := ((claim_C2_cap_reject_amended cfgC2 sEmpty (strOf "1234") 2 rfl
    (by norm_num) (by decide)).1 rfl (by decide)).2 (fun _ => rfl)
  exact h

/-- Configuration refuting C2 as stated: a custom validator is configured. -/
def cfgC2x : Config :=
  { maxDigits := Option.some 2, validate := fun _ => Option.some "custom" }

/-- C2 counterexample: with a custom validator configured, the refreshed
error on a cap-rejected keystroke is the validator's message, not
`"Maximum digits is 2"`. -/
theorem claim_C2_counterexample :
    (handleChangeText cfgC2x sEmpty (strOf "1234")).error
      = Option.some "custom" := by
  decide

/-! ### C6 — sign-toggle parity -/

/-- Configuration for C6: negatives allowed, currency mask, no bounds. -/
def cfgC6 : Config := { allowNegative := true }

/-- C6 counterexample: typing a lone `"-"` has an odd `'-'` count but yields
`value = null`, not a negative value, so parity does not always determine
the sign of a (numeric) result. -/
theorem claim_C6_counterexample :
    (handleChangeText cfgC6 sEmpty (strOf "-")).value = Option.none
      ∧ (strOf "-").count '-' % 2 = 1 := by
  decide

/-- The unsigned currency-mode magnitude is non-negative. -/
theorem currencyNumericBase_nonneg (cfg : Config) (t : Str) :
    0 ≤ currencyNumericBase cfg t := by
  unfold currencyNumericBase
  apply add_nonneg (Nat.cast_nonneg _)
  split
  · positivity
  · exact le_refl 0

/-- The unsigned raw-mode magnitude is non-negative. -/
theorem rawNumericBase_nonneg (cfg : Config) (t : Str) :
    0 ≤ rawNumericBase cfg t := by
  unfold rawNumericBase
  apply add_nonneg (Nat.cast_nonneg _)
  split
  · positivity
  · exact le_refl 0

/-- The digit stream the active mask mode keeps for the typed text. -/
def maskDigitsOnly (cfg : Config) (inputText : Str) : Str :=
  match cfg.mask with
  | Mask.currency => currencyDigitsOnly cfg inputText
  | Mask.raw => rawDigitsOnly cfg inputText

/-- A digit character other than `'0'` has a positive value. -/
theorem charVal_pos_of_digit {c : Char} (h : c.isDigit = true)
    (h0 : c ≠ '0') : 0 < charVal c := by
  unfold Char.isDigit at h
  rw [Bool.and_eq_true, decide_eq_true_eq, decide_eq_true_eq] at h
  have h1 : (48 : ℕ) ≤ c.val.toNat := UInt32.le_def.mp h.1
  have h2 : c.val.toNat ≠ 48 := by
    intro heq
    apply h0
    apply Char.ext
    exact UInt32.toNat.inj heq
  unfold charVal Char.toNat
  omega

/-- The digit fold stays positive once the accumulator is positive. -/
theorem foldl_jsNumber_pos (l : Str) :
    ∀ a : ℕ, 0 < a → 0 < l.foldl (fun x c => 10 * x + charVal c) a := by
  induction l with
  | nil =>
    intro a ha
    simpa using ha
  | cons c tl ih =>
    intro a ha
    simp only [List.foldl_cons]
    exact ih _ (by omega)

/-- A string containing a positive-valued character has a positive
`Number(·)` value. -/
theorem jsNumber_pos :
    ∀ {l : Str} {c : Char}, c ∈ l → 0 < charVal c → 0 < jsNumber l := by
  intro l
  induction l with
  | nil =>
    intro c hc _
    cases hc
  | cons d tl ih =>
    intro c hc h0
    unfold jsNumber
    simp only [List.foldl_cons]
    rcases List.mem_cons.mp hc with h | h
    · subst h
      exact foldl_jsNumber_pos tl _ (by omega)
    · rcases Nat.eq_zero_or_pos (10 * 0 + charVal d) with hz | hp
      · rw [hz]
        exact ih h h0
      · exact foldl_jsNumber_pos tl _ hp

/-- Dropping leading `'0'` characters does not change `Number(·)`. -/
theorem jsNumber_dropWhile_zeros (l : Str) :
    jsNumber (l.dropWhile (fun c => c == '0')) = jsNumber l := by
  induction l with
  | nil => rfl
  | cons d tl ih =>
    by_cases hd : (d == '0') = true
    · have hd' : d = '0' := by simpa using hd
      subst hd'
      simp only [List.dropWhile_cons, hd, if_true]
      rw [ih]
      rfl
    · simp [List.dropWhile_cons, hd]

/-- `stripLeadingZeros` does not change `Number(·)`. -/
theorem jsNumber_stripLeadingZeros (l : Str) :
    jsNumber (stripLeadingZeros l) = jsNumber l := by
  simp only [stripLeadingZeros]
  split
  · rename_i h
    rw [← jsNumber_dropWhile_zeros l, h]
    rfl
  · exact jsNumber_dropWhile_zeros l

/-- If some kept digit of `intPart ++ fracPart` is nonzero, the parsed
magnitude `Number(stripLeadingZeros intPart) + Number(fracPart)/10^len` is
strictly positive. -/
theorem numericBase_pos (ip fp : Str) (c : Char)
    (hc : c ∈ stripToDigits (ip ++ fp)) (hc0 : c ≠ '0') :
    0 < (jsNumber (stripLeadingZeros ip) : ℚ)
      + (if fp.length > 0 then (jsNumber fp : ℚ) / 10 ^ fp.length else 0) := by
  simp only [stripToDigits] at hc
  obtain ⟨hmem, hdig⟩ := List.mem_filter.mp hc
  have hval : 0 < charVal c := charVal_pos_of_digit hdig hc0
  have hfp : (0 : ℚ)
      ≤ if fp.length > 0 then (jsNumber fp : ℚ) / 10 ^ fp.length else 0 := by
    split
    · positivity
    · exact le_refl 0
  rcases List.mem_append.mp hmem with h | h
  · have h1 : 0 < jsNumber ip := jsNumber_pos h hval
    have h2 : (0 : ℚ) < (jsNumber (stripLeadingZeros ip) : ℚ) := by
      rw [jsNumber_stripLeadingZeros]
      exact_mod_cast h1
    linarith
  · have hlen : 0 < fp.length := List.length_pos.mpr (List.ne_nil_of_mem h)
    have h1 : 0 < jsNumber fp := jsNumber_pos h hval
    have h2 : (0 : ℚ) < (jsNumber fp : ℚ) / 10 ^ fp.length :=
      div_pos (by exact_mod_cast h1) (by positivity)
    have h3 : (0 : ℚ) ≤ (jsNumber (stripLeadingZeros ip) : ℚ) :=
      Nat.cast_nonneg _
    rw [if_pos hlen]
    linarith

/-- C6 (amended): in both mask modes, with no bounds and no digit cap
configured, the `'-'` characters contribute no digits and the parity of the
`'-'` count in the typed text determines the sign of a numeric result: with
negatives allowed, an odd count gives a non-positive value — strictly
negative whenever some kept digit is nonzero — and an even count a
non-negative one; with negatives disallowed the result is never negative.
Inputs that keep no digits yield `value = null`, except the currency-mode
lone decimal separator, which yields `value = 0`. -/
theorem claim_C6_sign_parity_amended (cfg : Config) (s : EngineState)
    (t : Str) (hmn : cfg.minimumValue = Option.none)
    (hmx : cfg.maximumValue = Option.none)
    (hmd : cfg.maxDigits = Option.none) :
    (∀ v : ℚ, (handleChangeText cfg s t).value = Option.some v →
        (cfg.allowNegative = true →
          (t.count '-' % 2 = 1 →
            v ≤ 0 ∧ ((∃ c ∈ maskDigitsOnly cfg t, c ≠ '0') → v < 0))
          ∧ (t.count '-' % 2 = 0 → 0 ≤ v))
        ∧ (cfg.allowNegative = false → 0 ≤ v))
    ∧ (maskDigitsOnly cfg t = [] →
        (handleChangeText cfg s t).value
          = if cfg.mask = Mask.currency ∧ currencyAllowFraction cfg = true
                ∧ currencyCleaned cfg t = [cfg.sep]
            then Option.some 0 else Option.none) := by
  constructor
  · intro v hv
    by_cases ht : t = []
    · subst ht
      simp [handleChangeText, applyFormattedState] at hv
    · unfold handleChangeText at hv
      rw [if_neg ht] at hv
      cases hmask : cfg.mask with
      | currency =>
        rw [hmask] at hv
        simp only [handleChangeTextCurrency, capRejects, hmd,
          applyFormattedState, Bool.false_eq_true, if_false] at hv
        split at hv
        · -- digitsOnly = []
          rename_i hdig0
          split at hv
          · -- lone-separator branch: the value is 0
            simp only [Option.some.injEq] at hv
            subst hv
            refine ⟨fun _ => ⟨fun _ => ⟨le_refl 0, fun hex => ?_⟩,
              fun _ => le_refl 0⟩, fun _ => le_refl 0⟩
            obtain ⟨c, hc, _⟩ := hex
            simp only [maskDigitsOnly, hmask, hdig0] at hc
            exact absurd hc (List.not_mem_nil c)
          · simp at hv
        · -- main parse branch
          rename_i hdig0
          simp only [clampIncomingValue, hmn, hmx, Option.getD_none,
            Option.some.injEq] at hv
          cases han : cfg.allowNegative <;>
            simp only [han, Bool.not_false, Bool.not_true, Bool.false_and,
              Bool.true_and, Bool.false_eq_true, if_false, nextNegativeOf,
              minusCountOf, if_true, decide_eq_true_eq] at hv
          · refine ⟨fun htrue => by simp at htrue, fun _ => ?_⟩
            split at hv
            · linarith [hv]
            · rw [← hv]
              simp only [currencyNumeric, Bool.and_false, Bool.false_eq_true,
                if_false]
              exact currencyNumericBase_nonneg cfg t
          · refine ⟨fun _ => ⟨fun hodd => ?_, fun heven => ?_⟩,
              fun hfalse => by simp at hfalse⟩
            · have hd : decide (t.count '-' % 2 = 1) = true := by simp [hodd]
              rw [hd] at hv
              have hveq : v = -(currencyNumericBase cfg t) := by
                rw [← hv]
                simp [currencyNumeric, han]
              refine ⟨?_, fun hex => ?_⟩
              · rw [hveq]
                exact neg_nonpos.mpr (currencyNumericBase_nonneg cfg t)
              · obtain ⟨c, hc, hc0⟩ := hex
                simp only [maskDigitsOnly, hmask, currencyDigitsOnly] at hc
                have hpos : 0 < currencyNumericBase cfg t := by
                  unfold currencyNumericBase
                  exact numericBase_pos _ _ c hc hc0
                rw [hveq]
                exact neg_lt_zero.mpr hpos
            · have hd : decide (t.count '-' % 2 = 1) = false := by
                simp [heven]
              rw [hd] at hv
              rw [← hv]
              simp only [currencyNumeric, Bool.and_false, Bool.false_eq_true,
                if_false]
              exact currencyNumericBase_nonneg cfg t
      | raw =>
        rw [hmask] at hv
        simp only [handleChangeTextRaw, capRejects, hmd,
          applyFormattedState, Bool.false_eq_true, if_false] at hv
        split at hv
        · simp at hv
        · rename_i hdig0
          simp only [clampIncomingValue, hmn, hmx, Option.getD_none,
            Option.some.injEq] at hv
          cases han : cfg.allowNegative <;>
            simp only [han, Bool.not_false, Bool.not_true, Bool.false_and,
              Bool.true_and, Bool.false_eq_true, if_false, nextNegativeOf,
              minusCountOf, if_true, decide_eq_true_eq] at hv
          · refine ⟨fun htrue => by simp at htrue, fun _ => ?_⟩
            split at hv
            · linarith [hv]
            · rw [← hv]
              simp only [rawNumeric, Bool.and_false, Bool.false_eq_true,
                if_false]
              exact rawNumericBase_nonneg cfg t
          · refine ⟨fun _ => ⟨fun hodd => ?_, fun heven => ?_⟩,
              fun hfalse => by simp at hfalse⟩
            · have hd : decide (t.count '-' % 2 = 1) = true := by simp [hodd]
              rw [hd] at hv
              have hveq : v = -(rawNumericBase cfg t) := by
                rw [← hv]
                simp [rawNumeric, han]
              refine ⟨?_, fun hex => ?_⟩
              · rw [hveq]
                exact neg_nonpos.mpr (rawNumericBase_nonneg cfg t)
              · obtain ⟨c, hc, hc0⟩ := hex
                simp only [maskDigitsOnly, hmask, rawDigitsOnly] at hc
                have hpos : 0 < rawNumericBase cfg t := by
                  unfold rawNumericBase
                  exact numericBase_pos _ _ c hc hc0
                rw [hveq]
                exact neg_lt_zero.mpr hpos
            · have hd : decide (t.count '-' % 2 = 1) = false := by
                simp [heven]
              rw [hd] at hv
              rw [← hv]
              simp only [rawNumeric, Bool.and_false, Bool.false_eq_true,
                if_false]
              exact rawNumericBase_nonneg cfg t
  · intro hdig
    split
    · rename_i hcond
      obtain ⟨hm, hf, hcl⟩ := hcond
      have ht : t ≠ [] := by
        intro h
        subst h
        simp only [currencyCleaned, List.filter_nil] at hcl
        exact absurd hcl (by simp)
      simp only [maskDigitsOnly, hm] at hdig
      unfold handleChangeText
      rw [if_neg ht, hm]
      simp only [handleChangeTextCurrency, capRejects, hmd,
        Bool.false_eq_true, if_false]
      rw [if_pos hdig,
        if_pos (show (currencyAllowFraction cfg
            && (currencyCleaned cfg t == [cfg.sep])) = true by
          rw [Bool.and_eq_true]
          exact ⟨hf, by simpa using hcl⟩)]
      simp [applyFormattedState]
    · rename_i hcond
      by_cases ht : t = []
      · subst ht
        simp [handleChangeText, applyFormattedState]
      · unfold handleChangeText
        rw [if_neg ht]
        cases hm : cfg.mask with
        | currency =>
          simp only [maskDigitsOnly, hm] at hdig
          simp only [handleChangeTextCurrency, capRejects, hmd,
            Bool.false_eq_true, if_false]
          rw [if_pos hdig,
            if_neg (show ¬ (currencyAllowFraction cfg
                && (currencyCleaned cfg t == [cfg.sep])) = true by
              intro habs
              rw [Bool.and_eq_true] at habs
              exact hcond ⟨hm, habs.1, by simpa using habs.2⟩)]
          simp [applyFormattedState]
        | raw =>
          simp only [maskDigitsOnly, hm] at hdig
          simp only [handleChangeTextRaw, capRejects, hmd,
            Bool.false_eq_true, if_false]
          rw [if_pos hdig]
          simp [applyFormattedState]

/-- In currency mode, an accepted (non-capped, digit-bearing) keystroke sets
`value` to the clamped sign-adjusted numeric. -/
theorem handleChangeText_currency_value (cfg : Config) (s : EngineState)
    (t : Str) (ht : t ≠ []) (hmask : cfg.mask = Mask.currency)
    (hcap : capRejects cfg.maxDigits (currencyIntPart cfg t) = false)
    (hdig : currencyDigitsOnly cfg t ≠ []) :
    (handleChangeText cfg s t).value
      = clampIncomingValue
          (Option.some (currencyNumeric cfg t (nextNegativeOf cfg t)))
          cfg.allowNegative cfg.minimumValue cfg.maximumValue := by
  unfold handleChangeText
  rw [if_neg ht, hmask]
  simp only [handleChangeTextCurrency, hcap, Bool.false_eq_true, if_false]
  rw [if_neg hdig]
  simp only [applyFormattedState]

theorem claim_C6_sign_parity_amended_witness :
    (handleChangeText cfgC6 sEmpty (strOf "-123")).value
        = Option.some (-123)
      ∧ ((-123 : ℚ) < 0)
      ∧ (handleChangeText cfgC6 sEmpty (strOf "-123-")).value
          = Option.some 123
      ∧ (handleChangeText cfgC6 sEmpty (strOf "-")).value = Option.none := by
  have hb1 : currencyNumericBase cfgC6 (strOf "-123") = 123 := by
    unfold currencyNumericBase
    rw [show currencyFracLimited cfgC6 (strOf "-123") = [] from by decide,
      show jsNumber (stripLeadingZeros (currencyIntPart cfgC6 (strOf "-123")))
        = 123 from by decide]
    norm_num
  have hb2 : currencyNumericBase cfgC6 (strOf "-123-") = 123 := by
    unfold currencyNumericBase
    rw [show currencyFracLimited cfgC6 (strOf "-123-") = [] from by decide,
      show jsNumber (stripLeadingZeros (currencyIntPart cfgC6 (strOf "-123-")))
        = 123 from by decide]
    norm_num
  have hv1 : (handleChangeText cfgC6 sEmpty (strOf "-123")).value
      = Option.some (-123) := by
    rw [handleChangeText_currency_value cfgC6 sEmpty (strOf "-123")
      (by decide) rfl (by decide) (by decide)]
    rw [show nextNegativeOf cfgC6 (strOf "-123") = true from by decide]
    simp [currencyNumeric, clampIncomingValue, hb1,
      show cfgC6.allowNegative = true from rfl,
      show cfgC6.minimumValue = Option.none from rfl,
      show cfgC6.maximumValue = Option.none from rfl]
  have hv2 : (handleChangeText cfgC6 sEmpty (strOf "-123-")).value
      = Option.some 123 := by
    rw [handleChangeText_currency_value cfgC6 sEmpty (strOf "-123-")
      (by decide) rfl (by decide) (by decide)]
    rw [show nextNegativeOf cfgC6 (strOf "-123-") = false from by decide]
    simp [currencyNumeric, clampIncomingValue, hb2,
      show cfgC6.allowNegative = true from rfl,
      show cfgC6.minimumValue = Option.none from rfl,
      show cfgC6.maximumValue = Option.none from rfl]
  have hnull : (handleChangeText cfgC6 sEmpty (strOf "-")).value
      = Option.none := by
    have h := (claim_C6_sign_parity_amended cfgC6 sEmpty (strOf "-")
      rfl rfl rfl).2 (by decide)
    rw [if_neg (by decide)] at h
    exact h
  refine ⟨hv1, ?_, hv2, hnull⟩
  exact (((claim_C6_sign_parity_amended cfgC6 sEmpty (strOf "-123")
      rfl rfl rfl).1 (-123) hv1).1 rfl).1 (by decide)
    |>.2 ⟨'1', by decide, by decide⟩

/-! ### C8 — encode/decode round trip -/

theorem natToStr_ne_nil (n : ℕ) : natToStr n ≠ [] := by
  unfold natToStr
  split
  · simp
  · rename_i hn
    simp [List.map_eq_nil_iff, List.reverse_eq_nil_iff,
      Nat.digits_ne_nil_iff_ne_zero, hn]

theorem natToStr_isDigit (n : ℕ) : ∀ c ∈ natToStr n, c.isDigit = true := by
  unfold natToStr
  split
  · intro c hc
    simp only [List.mem_singleton] at hc
    subst hc
    decide
  · intro c hc
    simp only [List.mem_map, List.mem_reverse] at hc
    obtain ⟨d, hd, rfl⟩ := hc
    have hlt : d < 10 := Nat.digits_lt_base (by norm_num) hd
    unfold digitChar
    interval_cases d <;> decide

theorem stripToDigits_natToStr (n : ℕ) :
    stripToDigits (natToStr n) = natToStr n :=
  List.filter_eq_self.mpr (natToStr_isDigit n)

theorem charVal_digitChar {d : ℕ} (hd : d < 10) :
    charVal (digitChar d) = d := by
  unfold charVal digitChar
  interval_cases d <;> decide

theorem foldl_mul_add (L : List ℕ) (a : ℕ) :
    L.foldl (fun x d => 10 * x + d) a
      = a * 10 ^ L.length + Nat.ofDigits 10 L.reverse := by
  induction L generalizing a with
  | nil => simp [Nat.ofDigits]
  | cons d tl ih =>
    simp only [List.foldl_cons, List.reverse_cons, List.length_cons]
    rw [ih, Nat.ofDigits_append, Nat.ofDigits_singleton,
      List.length_reverse]
    ring

theorem jsNumber_natToStr (n : ℕ) : jsNumber (natToStr n) = n := by
  unfold jsNumber natToStr
  split
  · rename_i hn
    subst hn
    decide
  · rename_i hn
    rw [List.foldl_map]
    have hext : List.foldl (fun x d => 10 * x + charVal (digitChar d)) 0
        (Nat.digits 10 n).reverse
        = List.foldl (fun x d => 10 * x + d) 0 (Nat.digits 10 n).reverse := by
      apply List.foldl_ext
      intro a b hb
      rw [charVal_digitChar (Nat.digits_lt_base (by norm_num)
        (List.mem_reverse.mp hb))]
    rw [hext, foldl_mul_add]
    simp [List.reverse_reverse, Nat.ofDigits_digits]

theorem jsRound_nonneg {x : ℚ} (hx : 0 ≤ x) : 0 ≤ jsRound x := by
  unfold jsRound
  exact Int.floor_nonneg.mpr (by linarith)

theorem abs_jsRound_sub (x : ℚ) : |((jsRound x : ℤ) : ℚ) - x| ≤ 1 / 2 := by
  unfold jsRound
  have h1 := Int.floor_le (x + 1 / 2)
  have h2 := Int.lt_floor_add_one (x + 1 / 2)
  rw [abs_sub_le_iff]
  constructor <;> linarith

theorem lower_clamp_abs {x v lo e : ℚ} (hlo : lo ≤ v) (h : |x - v| ≤ e) :
    |(if x < lo then lo else x) - v| ≤ e := by
  split
  · rename_i hx
    rw [abs_sub_le_iff] at h ⊢
    constructor <;> linarith [h.1, h.2]
  · exact h

theorem upper_clamp_abs {x v hi e : ℚ} (hhi : v ≤ hi) (h : |x - v| ≤ e) :
    |(if x > hi then hi else x) - v| ≤ e := by
  split
  · rename_i hx
    rw [abs_sub_le_iff] at h ⊢
    constructor <;> linarith [h.1, h.2]
  · exact h

/-- `parseCurrencyFromDigits` on an all-digit encoded string, written out as
the sign/replacement/clamp chain. -/
theorem parse_natToStr (N f : ℕ) (mn mx : Option ℚ) (a isNeg : Bool) :
    parseCurrencyFromDigits (natToStr N)
        { fractionDigits := Option.some f,
          minimumFractionDigits := Option.none,
          maximumFractionDigits := Option.none, minimumValue := mn,
          maximumValue := mx, allowNegative := a,
          maxDigits := Option.none, isNegative := isNeg }
      = Option.some
          (let v0 : ℚ := (N : ℚ) / 10 ^ f
           let v1 : ℚ := if isNeg && a then -v0 else v0
           let v2 : ℚ := if !a && decide (v1 < 0) then mn.getD 0 else v1
           let v3 : ℚ :=
             match mn with
             | Option.some lo => if v2 < lo then lo else v2
             | Option.none => v2
           match mx with
           | Option.some hi => if v3 > hi then hi else v3
           | Option.none => v3) := by
  unfold parseCurrencyFromDigits
  simp only [resolveOf, resolveFractionDigits, Option.getD_none,
    Option.getD_some, max_self]
  rw [stripToDigits_natToStr, if_neg (natToStr_ne_nil N)]
  simp only [applyMaxDigits, jsNumber_natToStr]

/-- C8: encode-then-decode round trip.  For any value `v` whose sign is
permitted (`allowNegative` when `v < 0`) and any bounds containing `v`,
decoding the `digitsFromValue` encoding through `parseCurrencyFromDigits`
with the same fraction-digit count recovers `v` to within `10^-f`. -/
theorem claim_C8_round_trip (v : ℚ) (f : ℕ) (a : Bool) (mn mx : Option ℚ)
    (hneg : v < 0 → a = true)
    (hmn : ∀ q, mn = Option.some q → q ≤ v)
    (hmx : ∀ q, mx = Option.some q → v ≤ q) :
    ∃ w, parseCurrencyFromDigits (digitsFromValue (Option.some v) f).1
        { fractionDigits := Option.some f,
          minimumFractionDigits := Option.none,
          maximumFractionDigits := Option.none, minimumValue := mn,
          maximumValue := mx, allowNegative := a,
          maxDigits := Option.none,
          isNegative := (digitsFromValue (Option.some v) f).2 }
        = Option.some w
      ∧ |w - v| ≤ 1 / 10 ^ f := by
  have hf : (0 : ℚ) < 10 ^ f := by positivity
  have hd1 : (digitsFromValue (Option.some v) f).1
      = natToStr (jsRound (|v| * 10 ^ f)).toNat := rfl
  have hd2 : (digitsFromValue (Option.some v) f).2 = decide (v < 0) := rfl
  have hNQ : (((jsRound (|v| * 10 ^ f)).toNat : ℕ) : ℚ)
      = ((jsRound (|v| * 10 ^ f) : ℤ) : ℚ) := by
    have h := Int.toNat_of_nonneg
      (jsRound_nonneg (show (0 : ℚ) ≤ |v| * 10 ^ f by positivity))
    exact_mod_cast congrArg (fun z : ℤ => (z : ℚ)) h
  set A : ℚ := (((jsRound (|v| * 10 ^ f)).toNat : ℕ) : ℚ) with hA
  have hNd : |A - |v| * 10 ^ f| ≤ 1 / 2 := by
    rw [hNQ]
    exact abs_jsRound_sub _
  have hA0 : (0 : ℚ) ≤ A := by
    rw [hA]
    positivity
  have hr0 : (0 : ℚ) ≤ A / 10 ^ f := div_nonneg hA0 (le_of_lt hf)
  have hr : |(A / 10 ^ f - |v|)| ≤ 1 / 2 / 10 ^ f := by
    have heq : (A - |v| * 10 ^ f) / 10 ^ f = A / 10 ^ f - |v| := by
      rw [sub_div, mul_div_cancel_right₀ _ (ne_of_gt hf)]
    rw [← heq, abs_div, abs_of_pos hf]
    exact (div_le_div_iff_of_pos_right hf).mpr hNd
  have hbase : |(if decide (v < 0) && a then -(A / 10 ^ f) else A / 10 ^ f)
      - v| ≤ 1 / 2 / 10 ^ f := by
    by_cases hv : v < 0
    · have hcond : (decide (v < 0) && a) = true := by
        rw [decide_eq_true hv, hneg hv]
        rfl
      rw [if_pos hcond]
      have habs : -v = |v| := (abs_of_neg hv).symm
      have heq2 : -(A / 10 ^ f) - v = -(A / 10 ^ f - |v|) := by
        rw [← habs]
        ring
      rw [heq2, abs_neg]
      exact hr
    · have hcond : (decide (v < 0) && a) = false := by
        rw [decide_eq_false hv]
        rfl
      rw [if_neg (by rw [hcond]; exact Bool.false_ne_true)]
      rw [show v = |v| from (abs_of_nonneg (le_of_not_lt hv)).symm]
      exact hr
  have hskip : (if !a && decide ((if decide (v < 0) && a
        then -(A / 10 ^ f) else A / 10 ^ f) < 0)
      then mn.getD 0
      else (if decide (v < 0) && a then -(A / 10 ^ f) else A / 10 ^ f))
      = (if decide (v < 0) && a then -(A / 10 ^ f) else A / 10 ^ f) := by
    by_cases hv : v < 0
    · rw [hneg hv]
      simp
    · have hcond : (decide (v < 0) && a) = false := by
        rw [decide_eq_false hv]
        rfl
      rw [hcond]
      simp [hr0.not_lt]
  have hhalf : (1 : ℚ) / 2 / 10 ^ f ≤ 1 / 10 ^ f :=
    (div_le_div_iff_of_pos_right hf).mpr (by norm_num)
  rw [hd1, hd2, parse_natToStr]
  refine ⟨_, rfl, ?_⟩
  dsimp only
  rw [← hA, hskip]
  rcases mn with _ | lo <;> rcases mx with _ | hi
  · exact le_trans hbase hhalf
  · exact le_trans (upper_clamp_abs (hmx hi rfl) hbase) hhalf
  · exact le_trans (lower_clamp_abs (hmn lo rfl) hbase) hhalf
  · exact le_trans (upper_clamp_abs (hmx hi rfl)
      (lower_clamp_abs (hmn lo rfl) hbase)) hhalf

theorem claim_C8_round_trip_witness :
    ∃ w, parseCurrencyFromDigits (digitsFromValue (Option.some 5) 2).1
        { fractionDigits := Option.some 2,
          minimumFractionDigits := Option.none,
          maximumFractionDigits := Option.none,
          minimumValue := Option.none, maximumValue := Option.none,
          allowNegative := false, maxDigits := Option.none,
          isNegative := (digitsFromValue (Option.some 5) 2).2 }
        = Option.some w
      ∧ |w - 5| ≤ 1 / 10 ^ 2 :=
  claim_C8_round_trip 5 2 false Option.none Option.none
    (fun h => absurd h (by norm_num))
    (fun q hq => by cases hq) (fun q hq => by cases hq)

end FormatKit
